import Mathlib

/-!
Shallow embedding of `src/shell.c`, a small UNIX shell, together with proofs
about its tokenizer, command classifier, builtin dispatch and launchers.

Modelling conventions:
* A NULL-terminated `char **` argument vector is modelled as the `List String`
  of its non-NULL entries, in order.
* A fatal path (`printf(msg); exit(code)`) is modelled as
  `Except.error (msg, code)`; a normal return as `Except.ok`.
* The launchers' interaction with the OS is modelled as the list of system
  calls the parent process performs, parameterised by the values returned by
  `fork`.
-/

namespace Shell

/-- Value of a plain (signed, 8-bit) C `char` after storing an `int` in
`-1, 0, ..., 255` into it: the low byte, sign-extended.  `read_command_line`
stores the result of `getchar()` into such a `char` (shell.c:80, 94) before
comparing it with `EOF`. -/
def signedChar (n : Int) : Int := (n + 128) % 256 - 128

/-- Embedding of `read_command_line` (shell.c:77-121).  The pending input is
the list of bytes (each `< 256`) still unread; an empty list means `getchar`
returns `EOF` (-1).  The result is the pair of the bytes stored in the line
buffer and the bytes left unread.  The loop stops as soon as the stored
`char` compares equal to `EOF` or to `'\n'` (shell.c:99); because the
comparison happens only after the narrowing store into `char c`, the byte 255
stops it exactly as byte 10 or end of input does. -/
def read_command_line : List Nat → List Nat × List Nat
  | [] => ([], [])
  | b :: rest =>
    if signedChar ((b : Int)) = -1 ∨ signedChar ((b : Int)) = 10 then
      ([], rest)
    else
      (b :: (read_command_line rest).1, (read_command_line rest).2)

/-- Embedding of the `strtok(command_line, " ")` loop of `parse_command_line`
(shell.c:128-174).  `cur` holds, reversed, the run of non-space characters
read since the last emitted token; `strtok` with the single-character
delimiter `" "` yields exactly the maximal non-empty runs of non-space
characters, in order. -/
def tokenizeAux : List Char → List Char → List String
  | [], cur => if cur = [] then [] else [String.mk cur.reverse]
  | c :: rest, cur =>
    if c = ' ' then
      if cur = [] then tokenizeAux rest []
      else String.mk cur.reverse :: tokenizeAux rest []
    else tokenizeAux rest (c :: cur)

/-- Embedding of `parse_command_line` (shell.c:128-174): the tokenizer. -/
def parse_command_line (s : String) : List String := tokenizeAux s.data []

/-- Specification-side splitting (claim C5 wording): cut the line at every
space character; chunks between consecutive delimiters may be empty. -/
def splitAtSpaces : List Char → List (List Char)
  | [] => [[]]
  | c :: rest =>
    if c = ' ' then [] :: splitAtSpaces rest
    else
      match splitAtSpaces rest with
      | [] => [[c]]
      | chunk :: chunks => (c :: chunk) :: chunks

/-- Keep only the non-empty chunks, as strings.  Dropping the empty chunks of
`splitAtSpaces` is exactly "consecutive delimiters collapse". -/
def keepNonEmptyTokens (l : List (List Char)) : List String :=
  (l.filter (fun c => !c.isEmpty)).map (fun c => String.mk c)

/-- Specification-side contract of the Tokenizer, written from the spec words
(section 4.1): the ordered sequence of non-empty tokens obtained by splitting
on runs of the space character. -/
def specTokens (s : String) : List String :=
  keepNonEmptyTokens (splitAtSpaces s.data)

/-- Embedding of `block_check` (shell.c:275-285).  Returns the C result
(0 = the shell does not block, i.e. background; 1 = it blocks) together with
the vector after the trailing `"&"`, if any, was removed.  The C function
reads the element just before the terminator, so it is only defined on
non-empty vectors; the dispatcher (shell.c:189) never calls it on an empty
one, and the `none` branch below is dead. -/
def block_check (args : List String) : Nat × List String :=
  match args.getLast? with
  | some t => if t = "&" then (0, args.dropLast) else (1, args)
  | none => (1, args)

/-- Meaning of the `block_check` result: 0 means background was requested. -/
def backgroundOf (block : Nat) : Bool := block == 0

/-- The pair of `strcmp` tests of shell.c:298-299: is this token a
redirection operator? -/
def isOp (x : String) : Bool := x == ">" || x == ">>"

/-- Reserved control tokens that the two mutating classification passes
remove: `&` and the redirection operators. -/
def isCtl (x : String) : Bool := x == "&" || isOp x

/-- Embedding of `output_redirection` (shell.c:291-323).  Scans left to right
for the first `">"` or `">>"`; the element after it is the output file and
both tokens are removed (the in-place shifting loop of shell.c:314-316 copies
`args[j+2]` over `args[j]` until the terminator has been copied, which on a
vector with the operator at position `i >= 1` removes exactly the operator
and the filename; its first test reads the cell before the array when the
operator is at position 0, undefined in C, and the model uses the removal
semantics the loop implements everywhere else).  If nothing follows the
operator the shell prints "must specify output file" and exits with 1,
modelled as `Except.error`. -/
def output_redirection : List String → Except (String × Nat) (Option String × List String)
  | [] => Except.ok (none, [])
  | a :: rest =>
    if isOp a then
      match rest with
      | [] => Except.error ("must specify output file", 1)
      | f :: suf => Except.ok (some f, suf)
    else
      match output_redirection rest with
      | Except.error e => Except.error e
      | Except.ok (out, res) => Except.ok (out, a :: res)

/-- Embedding of `pipe_check` (shell.c:328-337): index of the first `"|"`,
`none` standing for the C return value -1. -/
def pipe_check : List String → Option Nat
  | [] => none
  | a :: rest => if a = "|" then some 0 else (pipe_check rest).map (fun i => i + 1)

/-- The three classification passes in source order (shell.c:203-210):
background check, then output redirection, then pipe check.  The pipe check
does not mutate the vector, so the classified vector is the one produced by
the redirection pass.  Result: `(block, output_file, pipe_index, vector)`. -/
def classify (args : List String) :
    Except (String × Nat) (Nat × Option String × Option Nat × List String) :=
  match output_redirection (block_check args).2 with
  | Except.error e => Except.error e
  | Except.ok (out, a2) => Except.ok ((block_check args).1, out, pipe_check a2, a2)

/-- Possible outcomes of one `execute_command_line` call (shell.c:182-225). -/
inductive CommandAction where
  | noop : CommandAction
  | builtinExit : CommandAction
  | builtinCd : CommandAction
  | fatalRedirection : CommandAction
  | launchExternal : List String → Nat → Option String → CommandAction
  | launchPipe : List String → Nat → Option String → Nat → CommandAction
  deriving DecidableEq

/-- Embedding of `execute_command_line` (shell.c:182-225).  An empty vector is
a no-op; builtin dispatch (which inspects element 0 only, against the list
`cd`, `exit`) runs before any classification; everything else is classified
and handed to the pipe launcher when a `"|"` was found, to the plain launcher
otherwise. -/
def execute_command_line (args : List String) : CommandAction :=
  match args with
  | [] => CommandAction.noop
  | a0 :: _ =>
    if a0 = "cd" ∨ a0 = "exit" then
      if a0 = "exit" then CommandAction.builtinExit else CommandAction.builtinCd
    else
      match output_redirection (block_check args).2 with
      | Except.error _ => CommandAction.fatalRedirection
      | Except.ok (out, a2) =>
        match pipe_check a2 with
        | some k => CommandAction.launchPipe a2 (block_check args).1 out k
        | none => CommandAction.launchExternal a2 (block_check args).1 out

/-- Whether the outcome hands the vector to one of the external launchers. -/
def isLaunch : CommandAction → Bool
  | CommandAction.launchExternal _ _ _ => true
  | CommandAction.launchPipe _ _ _ _ => true
  | _ => false

/-- Value of `execute_command_line` as seen by `shell_loop` (shell.c:56-70):
`Except.error c` models the whole process exiting with code `c` on the fatal
redirection path, otherwise the function returns 1 exactly for the `exit`
builtin and 0 for everything else. -/
def execute_exit_status : CommandAction → Except Nat Nat
  | CommandAction.fatalRedirection => Except.error 1
  | CommandAction.builtinExit => Except.ok 1
  | _ => Except.ok 0

/-- Embedding of `shell_loop` plus `main` (shell.c:34-71) over a finite list
of already-tokenized input lines: loop while the returned status is 0; once
`exit` flips it to 1 the loop ends and `main` returns 0.  `some c` is the
process exit code, `none` means the given input was exhausted with the loop
still running. -/
def shell_loop_from : List (List String) → Option Nat
  | [] => none
  | args :: rest =>
    match execute_exit_status (execute_command_line args) with
    | Except.error c => some c
    | Except.ok 0 => shell_loop_from rest
    | Except.ok (_ + 1) => some 0

/-- Embedding of `execute_cd` (shell.c:249-270).  `chdirOk p` tells whether
`chdir(p)` would succeed; `home` is the value of `getenv("HOME")`; `cwd` the
current working directory.  Returns the resulting working directory and the
diagnostic printed, if any.  With no argument or argument `"~"` the shell
calls `chdir(HOME)` and ignores its result; with an explicit argument a
failed `chdir` prints the diagnostic and leaves the directory unchanged. -/
def execute_cd (chdirOk : String → Bool) (home cwd : String) (args : List String) :
    String × Option String :=
  match args[1]? with
  | none => (if chdirOk home then home else cwd, none)
  | some p =>
    if p = "~" then (if chdirOk home then home else cwd, none)
    else if chdirOk p then (p, none)
    else (cwd, some ("cd: " ++ p ++ ": No such file or directory"))

/-- System calls the shell's parent process can perform in the launchers. -/
inductive SysAction where
  | forkCall : SysAction
  | pipeCall : SysAction
  | waitpid : Int → SysAction
  | closeFd : Nat → SysAction
  | printMsg : String → SysAction
  | exitCall : Nat → SysAction
  deriving DecidableEq

/-- Parent-side control flow of `execute_external` (shell.c:344-385), given
the value `pid` returned by `fork`: on failure print and exit 1; otherwise
(`pid > 0`, the child runs in its own copy) wait for the child exactly when
`block = 1`. -/
def execute_external_parent (pid : Int) (block : Nat) : List SysAction :=
  SysAction.forkCall ::
    (if pid < 0 then [SysAction.printMsg "unable to fork", SysAction.exitCall 1]
     else if block = 1 then [SysAction.waitpid pid] else [])

/-- Parent-side control flow of `execute_external_pipe` (shell.c:427-503),
given the values returned by the two `fork` calls.  Faithful to the source,
including its slip: the test after the second fork reads `pid1 < 0` again
(shell.c:463), not `pid2 < 0`, so a failed second fork is never detected.
On the surviving path the parent closes both pipe ends and waits for both
pids, with no test of `block` anywhere. -/
def execute_external_pipe_parent (pid1 pid2 : Int) (block : Nat) : List SysAction :=
  SysAction.pipeCall :: SysAction.forkCall ::
    (if pid1 < 0 then [SysAction.printMsg "unable to fork first child", SysAction.exitCall 1]
     else SysAction.forkCall ::
       (if pid1 < 0 then [SysAction.printMsg "unable to fork second child", SysAction.exitCall 1]
        else [SysAction.closeFd 0, SysAction.closeFd 1,
              SysAction.waitpid pid1, SysAction.waitpid pid2]))

/-- Embedding of `count_command_line_args` (shell.c:514-518). -/
def count_command_line_args (args : List String) : Nat := args.length

/-- One store into a malloc'd array of `char *` cells, modelled as a map from
index to `none` (never written, malloc garbage) or `some v` (`v = none` being
a stored NULL, `v = some s` a stored string). -/
def writeCell (arr : Nat → Option (Option String)) (i : Nat) (v : Option String) :
    Nat → Option (Option String) :=
  fun k => if k = i then some v else arr k

/-- A freshly malloc'd `char **`: no cell has been written. -/
def mallocStrArray : Nat → Option (Option String) := fun _ => none

/-- The right-hand copy loop of `execute_external_pipe` (shell.c:419-422):
copies the tokens right of the pipe into `pipe_right[0..]`, returning the
array and the final value of `j` (the number of tokens copied). -/
def copyRightLoop : List String → (Nat → Option (Option String)) → Nat →
    (Nat → Option (Option String)) × Nat
  | [], arr, j => (arr, j)
  | a :: rest, arr, j => copyRightLoop rest (writeCell arr j (some a)) (j + 1)

/-- Contents of `pipe_right` after shell.c:419-425: the copy loop followed by
`pipe_right[j + 1] = NULL`.  The allocation (shell.c:406) has exactly
`num_right = right.length` cells, so the terminator lands outside it and the
cell `right.length`, where the terminator belongs, is never written. -/
def pipeRightArray (right : List String) : Nat → Option (Option String) :=
  writeCell (copyRightLoop right mallocStrArray 0).1 ((copyRightLoop right mallocStrArray 0).2 + 1) none

/-- Claim C1, evaluated on the input `["ls", "|", "wc", "-l"]` of its own
example: the pipe is found at index 1 and the two right-hand tokens are
copied, but the vector is not re-terminated as the claim states.  The
allocation for `pipe_right` holds `num_right = 4 - (1 + 1) = 2` cells; the
cell at index 2, where the claim's re-termination would put NULL, is never
written (malloc garbage), while NULL is stored at index 3, outside the
allocation — the `pipe_right[j + 1] = NULL` of shell.c:425 with `j = 2`. -/
theorem C1_pipe_right_missing_terminator :
    pipe_check ["ls", "|", "wc", "-l"] = some 1
    ∧ count_command_line_args ["ls", "|", "wc", "-l"] - (1 + 1) = 2
    ∧ pipeRightArray ["wc", "-l"] 0 = some (some "wc")
    ∧ pipeRightArray ["wc", "-l"] 1 = some (some "-l")
    ∧ pipeRightArray ["wc", "-l"] 2 = none
    ∧ pipeRightArray ["wc", "-l"] 3 = some none :=
  ⟨rfl, rfl, rfl, rfl, rfl, rfl⟩

/-- Claim C3, evaluated at the failing input: the first fork succeeds
(`pid1 = 7`) and the second fork fails (`pid2 = -1`).  Because shell.c:463
re-tests `pid1 < 0`, the parent's trace shows no diagnostic and no `exit`:
it silently goes on to close the pipe ends and wait — the failure of the
second process-creation call is not detected, contradicting the claim. -/
theorem C3_second_fork_failure_undetected :
    execute_external_pipe_parent 7 (-1) 1 =
      [SysAction.pipeCall, SysAction.forkCall, SysAction.forkCall,
       SysAction.closeFd 0, SysAction.closeFd 1,
       SysAction.waitpid 7, SysAction.waitpid (-1)]
    ∧ SysAction.printMsg "unable to fork second child" ∉ execute_external_pipe_parent 7 (-1) 1
    ∧ SysAction.exitCall 1 ∉ execute_external_pipe_parent 7 (-1) 1 := by
  refine ⟨by decide, by decide, by decide⟩

/-- Claim C2 is false as stated: three concrete vectors whose classified form
still ends in a reserved control token.  `["ls", "|"]` keeps its trailing
`"|"` because the pipe check does not mutate the vector; `["a", "&", "&"]`
keeps a trailing `"&"` because the background check removes only the one last
element; `["a", ">", "f", ">"]` keeps a trailing `">"` because only the first
redirection occurrence is processed. -/
theorem C2_counterexample_trailing_tokens :
    classify ["ls", "|"] = Except.ok (1, none, some 1, ["ls", "|"])
    ∧ (["ls", "|"] : List String).getLast? = some "|"
    ∧ classify ["a", "&", "&"] = Except.ok (0, none, none, ["a", "&"])
    ∧ (["a", "&"] : List String).getLast? = some "&"
    ∧ classify ["a", ">", "f", ">"] = Except.ok (1, some "f", none, ["a", ">"])
    ∧ (["a", ">"] : List String).getLast? = some ">" :=
  ⟨rfl, rfl, rfl, rfl, rfl, rfl⟩

/-- Any non-empty list is some list with one element appended. -/
theorem concat_decomp {α : Type} (l : List α) (h : l ≠ []) : ∃ a t, l = t ++ [a] := by
  induction l with
  | nil => exact absurd rfl h
  | cons b u ih =>
    cases u with
    | nil => exact ⟨b, [], rfl⟩
    | cons c v =>
      obtain ⟨a, t, ht⟩ := ih (by simp)
      exact ⟨a, b :: t, by rw [ht]; rfl⟩

/-- A list whose last element is `a` is some list with `a` appended. -/
theorem getLast?_decomp {α : Type} (l : List α) (a : α) (h : l.getLast? = some a) :
    ∃ t, l = t ++ [a] := by
  have hne : l ≠ [] := by intro he; rw [he] at h; exact Option.noConfusion h
  obtain ⟨b, t, ht⟩ := concat_decomp l hne
  rw [ht, List.getLast?_concat] at h
  exact ⟨t, by rw [ht, Option.some_inj.mp h]⟩

/-- The last element, when present, is a member. -/
theorem getLast?_mem {α : Type} (l : List α) (a : α) (h : l.getLast? = some a) : a ∈ l := by
  obtain ⟨t, ht⟩ := getLast?_decomp l a h
  rw [ht]; simp

/-- On a vector ending in `"&"`, `block_check` strips it and reports 0
(background). -/
theorem block_check_amp (l : List String) : block_check (l ++ ["&"]) = (0, l) := by
  simp [block_check, List.getLast?_concat]

/-- On a vector not ending in `"&"`, `block_check` reports 1 (block) and
leaves the vector alone. -/
theorem block_check_noamp (l : List String) (h : l.getLast? ≠ some "&") :
    block_check l = (1, l) := by
  unfold block_check
  cases hx : l.getLast? with
  | none => rfl
  | some t =>
    have ht : t ≠ "&" := by intro he; exact h (by rw [hx, he])
    simp [ht]

/-- The redirection scan leaves a vector without operators untouched. -/
theorem or_no_op (l : List String) (h : ∀ x ∈ l, isOp x = false) :
    output_redirection l = Except.ok (none, l) := by
  induction l with
  | nil => rfl
  | cons a t ih =>
    have ha : isOp a = false := h a (by simp)
    have ht := ih (fun x hx => h x (by simp [hx]))
    simp [output_redirection, ha, ht]

/-- First occurrence with a following element: the operator and the filename
are removed, the filename is returned, the rest is preserved in order. -/
theorem or_first_op (pre : List String) (op f : String) (suf : List String)
    (hop : isOp op = true) (hpre : ∀ x ∈ pre, isOp x = false) :
    output_redirection (pre ++ op :: f :: suf) = Except.ok (some f, pre ++ suf) := by
  induction pre with
  | nil => simp [output_redirection, hop]
  | cons a t ih =>
    have ha : isOp a = false := hpre a (by simp)
    have ht := ih (fun x hx => hpre x (by simp [hx]))
    simp [output_redirection, ha, ht]

/-- First occurrence with nothing after it: the fatal
"must specify output file" path, exiting with status 1. -/
theorem or_op_last (pre : List String) (op : String)
    (hop : isOp op = true) (hpre : ∀ x ∈ pre, isOp x = false) :
    output_redirection (pre ++ [op]) = Except.error ("must specify output file", 1) := by
  induction pre with
  | nil => simp [output_redirection, hop]
  | cons a t ih =>
    have ha : isOp a = false := hpre a (by simp)
    have ht := ih (fun x hx => hpre x (by simp [hx]))
    simp [output_redirection, ha, ht]

/-- Every vector either has no redirection operator or splits at its first
one. -/
theorem first_op_split (l : List String) :
    (∀ x ∈ l, isOp x = false) ∨
      ∃ pre op rest, l = pre ++ op :: rest ∧ isOp op = true ∧ ∀ x ∈ pre, isOp x = false := by
  induction l with
  | nil => exact Or.inl (by intro x hx; cases hx)
  | cons a t ih =>
    by_cases ha : isOp a = true
    · exact Or.inr ⟨[], a, t, rfl, ha, by intro x hx; cases hx⟩
    · have ha2 : isOp a = false := by
        cases hb : isOp a with
        | false => rfl
        | true => exact absurd hb ha
      cases ih with
      | inl h =>
        refine Or.inl ?_
        intro x hx
        cases hx with
        | head => exact ha2
        | tail _ hm => exact h x hm
      | inr h =>
        obtain ⟨pre, op, rest, h1, h2, h3⟩ := h
        refine Or.inr ⟨a :: pre, op, rest, by rw [h1]; rfl, h2, ?_⟩
        intro x hx
        cases hx with
        | head => exact ha2
        | tail _ hm => exact h3 x hm

/-- Claim C4: in the output-redirection check, only the first left-to-right
occurrence of `">"` or `">>"` is processed (`isOp` covers exactly these two,
treated identically): the element after it is returned as the target
filename, both tokens are removed preserving the order of the remaining
elements, and later occurrences (inside `suf`) are untouched; when no element
follows the operator the shell prints "must specify output file" and exits
with status 1; a vector without operators is left unchanged. -/
theorem C4_output_redirection_first_occurrence (pre : List String) (op f : String)
    (suf : List String) (hop : isOp op = true) (hpre : ∀ x ∈ pre, isOp x = false) :
    output_redirection (pre ++ op :: f :: suf) = Except.ok (some f, pre ++ suf)
    ∧ output_redirection (pre ++ [op]) = Except.error ("must specify output file", 1)
    ∧ output_redirection pre = Except.ok (none, pre)
    ∧ isOp ">" = true ∧ isOp ">>" = true :=
  ⟨or_first_op pre op f suf hop hpre, or_op_last pre op hop hpre,
   or_no_op pre hpre, rfl, rfl⟩

/-- Witness for C4 at the spec's own example `["echo", "hi", ">", "out.txt"]`
and at its fatal variant `["echo", "hi", ">"]`. -/
theorem C4_witness :
    output_redirection ["echo", "hi", ">", "out.txt"] = Except.ok (some "out.txt", ["echo", "hi"])
    ∧ output_redirection ["echo", "hi", ">"] = Except.error ("must specify output file", 1) := by
  have h := C4_output_redirection_first_occurrence ["echo", "hi"] ">" "out.txt" []
    (by decide) (by decide)
  exact ⟨h.1, h.2.1⟩

/-- Claim C2 as amended: the classified vector's last element avoids the
mutable control tokens `&`, `>`, `>>` provided the input carried at most one
such token in total (repetition defeats the single-pass removals, see the
counterexample), and a trailing `|` is excluded from the statement (the pipe
check does not mutate the vector). -/
theorem C2_amended_classified_last (args : List String) (h0 : args ≠ [])
    (h1 : args.countP isCtl ≤ 1) (b : Nat) (out : Option String)
    (p : Option Nat) (res : List String)
    (h2 : classify args = Except.ok (b, out, p, res))
    (t : String) (h3 : res.getLast? = some t) :
    isCtl t = false := by
  have hctl_zero_last : ∀ l : List String, l.countP isCtl = 0 → isCtl t = true → t ∈ l → False := by
    intro l hz htt hm
    exact (List.countP_eq_zero.mp hz t hm) htt
  by_cases hA : args.getLast? = some "&"
  · -- background check strips the trailing "&"; nothing else is left to worry about
    obtain ⟨l, hl⟩ := getLast?_decomp args "&" hA
    have hbc : block_check args = (0, l) := by rw [hl]; exact block_check_amp l
    have hcount : l.countP isCtl = 0 := by
      rw [hl, List.countP_append] at h1
      have hamp : List.countP isCtl ["&"] = 1 := by decide
      rw [hamp] at h1
      omega
    have hnop : ∀ x ∈ l, isOp x = false := by
      intro x hx
      have := List.countP_eq_zero.mp hcount x hx
      simp [isCtl] at this
      exact this.2
    have hor : output_redirection l = Except.ok (none, l) := or_no_op l hnop
    have hcl : classify args = Except.ok (0, none, pipe_check l, l) := by
      unfold classify
      rw [hbc, hor]
    rw [hcl] at h2
    obtain ⟨hb, hout, hp, hres⟩ : 0 = b ∧ none = out ∧ pipe_check l = p ∧ l = res := by
      have := Except.ok.inj h2
      exact ⟨congrArg Prod.fst this, congrArg Prod.fst (congrArg Prod.snd this),
        congrArg Prod.fst (congrArg Prod.snd (congrArg Prod.snd this)),
        congrArg Prod.snd (congrArg Prod.snd (congrArg Prod.snd this))⟩
    cases hb2 : isCtl t with
    | false => rfl
    | true =>
      exact absurd hb2 (by
        intro htt
        exact hctl_zero_last l hcount htt (hres ▸ getLast?_mem res t h3))
  · -- no trailing "&": the vector goes unchanged into the redirection scan
    have hbc : block_check args = (1, args) := block_check_noamp args hA
    obtain ⟨tl, htl⟩ : ∃ tl, args.getLast? = some tl := by
      obtain ⟨a, u, hu⟩ := concat_decomp args h0
      exact ⟨a, by rw [hu, List.getLast?_concat]⟩
    have htlamp : tl ≠ "&" := by intro he; exact hA (by rw [htl, he])
    cases first_op_split args with
    | inl hno =>
      have hor : output_redirection args = Except.ok (none, args) := or_no_op args hno
      have hcl : classify args = Except.ok (1, none, pipe_check args, args) := by
        unfold classify
        rw [hbc, hor]
      rw [hcl] at h2
      have hres : args = res :=
        congrArg Prod.snd (congrArg Prod.snd (congrArg Prod.snd (Except.ok.inj h2)))
      have hte : t = tl := by
        rw [← hres] at h3
        rw [htl] at h3
        exact (Option.some_inj.mp h3).symm
      have htm : t ∈ args := hres ▸ getLast?_mem res t h3
      simp [isCtl, hte, htlamp, hno t htm, hte ▸ hno t htm]
    | inr hsplit =>
      obtain ⟨pre, op, rest, heq, hop, hpre⟩ := hsplit
      cases rest with
      | nil =>
        have hor : output_redirection args = Except.error ("must specify output file", 1) := by
          rw [heq]; exact or_op_last pre op hop hpre
        have : classify args = Except.error ("must specify output file", 1) := by
          unfold classify
          rw [hbc, hor]
        rw [this] at h2
        exact Except.noConfusion h2
      | cons f suf =>
        have hor : output_redirection args = Except.ok (some f, pre ++ suf) := by
          rw [heq]; exact or_first_op pre op f suf hop hpre
        have hcl : classify args = Except.ok (1, some f, pipe_check (pre ++ suf), pre ++ suf) := by
          unfold classify
          rw [hbc, hor]
        rw [hcl] at h2
        have hres : pre ++ suf = res :=
          congrArg Prod.snd (congrArg Prod.snd (congrArg Prod.snd (Except.ok.inj h2)))
        have hopctl : isCtl op = true := by simp [isCtl, hop]
        have hcount : (pre ++ suf).countP isCtl = 0 := by
          rw [heq] at h1
          rw [List.countP_append] at h1 ⊢
          rw [List.countP_cons, List.countP_cons, hopctl] at h1
          simp at h1
          omega
        cases hb2 : isCtl t with
        | false => rfl
        | true =>
          exact absurd hb2 (by
            intro htt
            exact hctl_zero_last (pre ++ suf) hcount htt (hres ▸ getLast?_mem res t h3))

/-- Witness for the amended C2 on `["echo", "hi", ">", "out.txt"]`, whose
classified vector `["echo", "hi"]` ends in `"hi"`. -/
theorem C2_amended_witness : isCtl "hi" = false :=
  C2_amended_classified_last ["echo", "hi", ">", "out.txt"] (by decide) (by decide)
    1 (some "out.txt") none ["echo", "hi"] rfl "hi" rfl

/-- The specification-side split never returns an empty chunk list. -/
theorem splitAtSpaces_ne_nil (cs : List Char) : splitAtSpaces cs ≠ [] := by
  cases cs with
  | nil => simp [splitAtSpaces]
  | cons c rest =>
    by_cases hc : c = ' '
    · simp [splitAtSpaces, hc]
    · simp only [splitAtSpaces, if_neg hc]
      cases h : splitAtSpaces rest <;> simp

/-- Filtering and packaging a chunk list, one chunk at a time. -/
theorem keepNonEmptyTokens_cons (x : List Char) (xs : List (List Char)) :
    keepNonEmptyTokens (x :: xs) =
      if x = [] then keepNonEmptyTokens xs else String.mk x :: keepNonEmptyTokens xs := by
  cases x <;> simp [keepNonEmptyTokens]

/-- The `strtok` loop with accumulator `cur` computes exactly the non-empty
chunks of the spec-side split, the first chunk extended by the pending run. -/
theorem tokenizeAux_splitAtSpaces (cs : List Char) : ∀ (cur ch : List Char)
    (chs : List (List Char)), splitAtSpaces cs = ch :: chs →
    tokenizeAux cs cur = keepNonEmptyTokens ((cur.reverse ++ ch) :: chs) := by
  induction cs with
  | nil =>
    intro cur ch chs h
    obtain ⟨h1, h2⟩ : ch = ([] : List Char) ∧ chs = ([] : List (List Char)) := by
      have := List.cons.inj (by simpa [splitAtSpaces] using h.symm)
      exact ⟨this.1, this.2⟩
    rw [h1, h2, keepNonEmptyTokens_cons]
    by_cases hcur : cur = []
    · simp [tokenizeAux, hcur, keepNonEmptyTokens]
    · have : ¬(cur.reverse ++ [] = []) := by simp [hcur]
      simp [tokenizeAux, hcur, this, keepNonEmptyTokens]
  | cons c rest ih =>
    intro cur ch chs h
    obtain ⟨ch2, chs2, hrest⟩ : ∃ ch2 chs2, splitAtSpaces rest = ch2 :: chs2 := by
      cases hx : splitAtSpaces rest with
      | nil => exact absurd hx (splitAtSpaces_ne_nil rest)
      | cons a b => exact ⟨a, b, rfl⟩
    by_cases hc : c = ' '
    · have hsplit : splitAtSpaces (c :: rest) = [] :: splitAtSpaces rest := by
        simp [splitAtSpaces, hc]
      rw [hsplit, hrest] at h
      obtain ⟨h1, h2⟩ := List.cons.inj h
      have hrec : tokenizeAux rest [] = keepNonEmptyTokens (ch2 :: chs2) := by
        have := ih [] ch2 chs2 hrest
        simpa using this
      rw [← h1, ← h2]
      by_cases hcur : cur = []
      · simp [tokenizeAux, hc, hcur, keepNonEmptyTokens_cons, hrec]
      · have hne : ¬(cur.reverse ++ [] = []) := by simp [hcur]
        have hL : tokenizeAux (c :: rest) cur = String.mk cur.reverse :: tokenizeAux rest [] := by
          simp [tokenizeAux, hc, hcur]
        have hR : keepNonEmptyTokens ((cur.reverse ++ []) :: ch2 :: chs2)
            = String.mk (cur.reverse ++ []) :: keepNonEmptyTokens (ch2 :: chs2) := by
          rw [keepNonEmptyTokens_cons, if_neg hne]
        rw [hL, hR, hrec]
        simp
    · have hsplit : splitAtSpaces (c :: rest) = (c :: ch2) :: chs2 := by
        simp only [splitAtSpaces, if_neg hc, hrest]
      rw [hsplit] at h
      obtain ⟨h1, h2⟩ := List.cons.inj h
      have hrec := ih (c :: cur) ch2 chs2 hrest
      rw [show tokenizeAux (c :: rest) cur = tokenizeAux rest (c :: cur) by
        simp [tokenizeAux, hc]]
      rw [hrec, ← h1, ← h2]
      simp

/-- Claim C5: the Tokenizer produces the ordered sequence of non-empty tokens
obtained by splitting on runs of the space character (`specTokens`, written
from the spec words), and the three example lines behave as stated. -/
theorem C5_tokenizer_splits_on_space_runs :
    (∀ s : String, parse_command_line s = specTokens s)
    ∧ parse_command_line "ls -la" = ["ls", "-la"]
    ∧ parse_command_line "" = []
    ∧ parse_command_line "a  b" = ["a", "b"] := by
  refine ⟨fun s => ?_, by decide, by decide, by decide⟩
  obtain ⟨ch, chs, h⟩ : ∃ ch chs, splitAtSpaces s.data = ch :: chs := by
    cases hx : splitAtSpaces s.data with
    | nil => exact absurd hx (splitAtSpaces_ne_nil s.data)
    | cons a b => exact ⟨a, b, rfl⟩
  rw [parse_command_line, specTokens, h, tokenizeAux_splitAtSpaces s.data [] ch chs h]
  simp

/-- Claim C6: on a non-empty vector, the background check removes the last
element and reports 0 (background requested) exactly when that element is
`"&"`; otherwise it reports 1 (block) and leaves the vector unchanged.
`backgroundOf` records that the C value 0 means background=true. -/
theorem C6_block_check_background (args : List String) (h : args ≠ []) :
    (args.getLast? = some "&" → block_check args = (0, args.dropLast))
    ∧ (args.getLast? ≠ some "&" → block_check args = (1, args))
    ∧ backgroundOf 0 = true ∧ backgroundOf 1 = false := by
  refine ⟨?_, block_check_noamp args, rfl, rfl⟩
  intro hx
  simp [block_check, hx]

/-- Witness for C6 at the spec's example `["sleep", "5", "&"]`. -/
theorem C6_witness : block_check ["sleep", "5", "&"] = (0, ["sleep", "5"]) :=
  (C6_block_check_background ["sleep", "5", "&"] (by decide)).1 rfl

/-- Claim C7: given successful forks, the single-command launcher's parent
waits for its child exactly when the blocking flag is 1, while the pipe
launcher's parent waits for both of its children whatever the flag is. -/
theorem C7_wait_blocking_asymmetry (pid pid1 pid2 : Int) (block : Nat)
    (h : 0 < pid) (h1 : 0 < pid1) (h2 : 0 < pid2) :
    (SysAction.waitpid pid ∈ execute_external_parent pid block ↔ block = 1)
    ∧ SysAction.waitpid pid1 ∈ execute_external_pipe_parent pid1 pid2 block
    ∧ SysAction.waitpid pid2 ∈ execute_external_pipe_parent pid1 pid2 block := by
  have hp : ¬pid < 0 := by omega
  have hp1 : ¬pid1 < 0 := by omega
  refine ⟨?_, ?_, ?_⟩
  · by_cases hb : block = 1 <;> simp [execute_external_parent, hp, hb]
  · simp [execute_external_pipe_parent, hp1]
  · simp [execute_external_pipe_parent, hp1]

/-- Witness for C7 with pids 3, 4, 5 and the background flag (block = 0):
the single launcher does not wait, the pipe launcher still waits for both. -/
theorem C7_witness :
    (SysAction.waitpid 3 ∈ execute_external_parent 3 0 ↔ (0 : Nat) = 1)
    ∧ SysAction.waitpid 4 ∈ execute_external_pipe_parent 4 5 0
    ∧ SysAction.waitpid 5 ∈ execute_external_pipe_parent 4 5 0 :=
  C7_wait_blocking_asymmetry 3 4 5 0 (by decide) (by decide) (by decide)

/-- Claim C8: a vector whose element 0 is `"exit"` makes the dispatcher
return the distinguished terminate result whatever follows; it is never
handed to a launcher, and the loop then ends with process exit code 0. -/
theorem C8_exit_terminates_loop (rest : List String) (lines : List (List String)) :
    execute_command_line ("exit" :: rest) = CommandAction.builtinExit
    ∧ isLaunch (execute_command_line ("exit" :: rest)) = false
    ∧ shell_loop_from (("exit" :: rest) :: lines) = some 0 := by
  have h : execute_command_line ("exit" :: rest) = CommandAction.builtinExit := by
    simp [execute_command_line]
  exact ⟨h, by rw [h]; rfl, by simp [shell_loop_from, h, execute_exit_status]⟩

/-- Witness for C8 at the spec's example `["exit", "now"]`. -/
theorem C8_witness :
    execute_command_line ["exit", "now"] = CommandAction.builtinExit
    ∧ isLaunch (execute_command_line ["exit", "now"]) = false
    ∧ shell_loop_from [["exit", "now"]] = some 0 :=
  C8_exit_terminates_loop ["now"] []

/-- Claim C9: `cd` with no argument or with `"~"` moves to the value of
`HOME`; with an explicit path whose `chdir` fails it prints
`cd: <path>: No such file or directory` and keeps the working directory; the
error is recovered, not fatal — the dispatcher treats `cd` as a builtin
returning 0, so the loop goes on. -/
theorem C9_cd_home_and_recovered_error (chdirOk : String → Bool) (home cwd p : String)
    (hhome : chdirOk home = true) (hp : p ≠ "~") (hfail : chdirOk p = false) :
    execute_cd chdirOk home cwd ["cd"] = (home, none)
    ∧ execute_cd chdirOk home cwd ["cd", "~"] = (home, none)
    ∧ execute_cd chdirOk home cwd ["cd", p] =
        (cwd, some ("cd: " ++ p ++ ": No such file or directory"))
    ∧ execute_command_line ["cd", p] = CommandAction.builtinCd
    ∧ execute_exit_status CommandAction.builtinCd = Except.ok 0 := by
  refine ⟨?_, ?_, ?_, ?_, rfl⟩
  · simp [execute_cd, hhome]
  · simp [execute_cd, hhome]
  · simp [execute_cd, hp, hfail]
  · simp [execute_command_line]

/-- Witness for C9 with `HOME = "/root"`, working directory `"/tmp"` and the
nonexistent path `"/nope"`. -/
theorem C9_witness :
    execute_cd (fun s => s == "/root") "/root" "/tmp" ["cd"] = ("/root", none)
    ∧ execute_cd (fun s => s == "/root") "/root" "/tmp" ["cd", "/nope"] =
        ("/tmp", some ("cd: " ++ "/nope" ++ ": No such file or directory")) := by
  have h := C9_cd_home_and_recovered_error (fun s => s == "/root") "/root" "/tmp" "/nope"
    (by decide) (by decide) (by decide)
  exact ⟨h.1, h.2.2.1⟩

/-- A byte that is neither 10 nor 255 does not stop the read loop. -/
theorem signedChar_not_stop (b : Nat) (hb : b < 256) (h10 : b ≠ 10) (h255 : b ≠ 255) :
    ¬(signedChar ((b : Int)) = -1 ∨ signedChar ((b : Int)) = 10) := by
  unfold signedChar
  intro h
  rcases h with h | h <;> omega

/-- Claim C10: `read_command_line` returns exactly the bytes before the first
newline (10), end of input, or byte 255 — the narrowing store into `char c`
makes 255 compare equal to `EOF` — and the rest of the stream is left
unread. -/
theorem C10_read_line_terminators (pre suf : List Nat) (t : Nat)
    (hpre : ∀ b ∈ pre, b < 256 ∧ b ≠ 10 ∧ b ≠ 255)
    (ht : t = 10 ∨ t = 255) :
    read_command_line (pre ++ t :: suf) = (pre, suf)
    ∧ read_command_line pre = (pre, []) := by
  induction pre with
  | nil =>
    refine ⟨?_, rfl⟩
    have hstop : signedChar ((t : Int)) = -1 ∨ signedChar ((t : Int)) = 10 := by
      cases ht with
      | inl h => subst h; exact Or.inr (by decide)
      | inr h => subst h; exact Or.inl (by decide)
    show read_command_line ([] ++ t :: suf) = ([], suf)
    simp only [List.nil_append, read_command_line]
    rw [if_pos hstop]
  | cons b rest ih =>
    obtain ⟨hb1, hb2, hb3⟩ := hpre b (by simp)
    have hcond := signedChar_not_stop b hb1 hb2 hb3
    have ihh := ih (fun x hx => hpre x (by simp [hx]))
    constructor
    · show read_command_line (b :: (rest ++ t :: suf)) = (b :: rest, suf)
      simp only [read_command_line]
      rw [if_neg hcond, ihh.1]
    · show read_command_line (b :: rest) = (b :: rest, [])
      simp only [read_command_line]
      rw [if_neg hcond, ihh.2]

/-- Witness for C10 on the stream `"hi\nX"` (bytes 104, 105, 10, 88): the
line is the two bytes before the newline and the byte after it stays
unread; without a terminator the whole stream is the line. -/
theorem C10_witness :
    read_command_line [104, 105, 10, 88] = ([104, 105], [88])
    ∧ read_command_line [104, 105] = ([104, 105], []) :=
  C10_read_line_terminators [104, 105] [88] 10 (by decide) (Or.inl rfl)

end Shell
